import Mathlib

/-!
Verification of the three-particles particle-system engine.

This file is a shallow embedding of the parts of the engine needed to settle
the specification claims: the value-expression evaluator (`calculateValue`),
the Bézier curve evaluator and its reference-counted cache, the sphere shape
emitter, the particle pool activation/deactivation, the emission scheduler
(distance based emission and bursts) and the spawn loop.

JavaScript numbers are modelled as rationals (`ℚ`) everywhere except the
sphere emitter, whose sampling uses trigonometric functions and is therefore
modelled over the reals (`ℝ`).  A JavaScript exception is modelled as the
`Except.error` case, and every use of `Math.random()` is made explicit by
threading a random stream `rng : ℕ → ℚ` together with the index of the next
value to be consumed.
-/

namespace ThreeParticles

/-- A Bézier control point, `{x, y, percentage?}` from `types.ts`.
`percentage` is optional (`Option ℚ` models `undefined`). -/
structure BezierPoint where
  x : ℚ := 0
  y : ℚ := 0
  percentage : Option ℚ := none
deriving DecidableEq, Repr

instance : Inhabited BezierPoint := ⟨{}⟩

/-- `nCr` from `three-particles-bezier.ts`: the loop
`for (let i = 1; i <= k; i++) z *= (n + 1 - i) / i` computing a binomial
coefficient as a product of rationals.  `j` below ranges over `0..k-1`,
standing for `i = j + 1`. -/
def nCr (n k : ℕ) : ℚ :=
  (List.range k).foldl
    (fun (z : ℚ) (j : ℕ) => z * (((n : ℚ) + 1 - ((j : ℚ) + 1)) / ((j : ℚ) + 1))) 1

/-- The mutable `start`/`stop` scan performed by
`bezierPoints.find((point, index) => ...)` inside the cached curve function:
walking the points left to right, the first point whose (defined) percentage
exceeds `p` becomes `stop` and the scan ends; every earlier point with a
defined percentage updates `start`.  `i` is the index of the head of `l`
inside the full list, `start`/`stop` carry the current values. -/
def scanGo (p : ℚ) : List BezierPoint → ℕ → ℕ → ℕ → ℕ × ℕ
  | [], _, start, stop => (start, stop)
  | pt :: rest, i, start, stop =>
    if p < pt.percentage.getD 0 then (start, i)
    else scanGo p rest (i + 1) (if pt.percentage.isSome then i else start) stop

/-- The `start`/`stop` pair used by the curve function for progress `p`:
`start = 0`, `stop = bezierPoints.length - 1` before the scan. -/
def scanAnchors (p : ℚ) (pts : List BezierPoint) : ℕ × ℕ :=
  scanGo p pts 0 0 (pts.length - 1)

/-- The accumulation loop `for (let i = 0; i <= n; i++) value += c * p.y`
of the cached curve function, with `c = nCr(n, i) * (1-q)^(n-i) * q^i`. -/
def bernsteinFold (pts : List BezierPoint) (start n : ℕ) (q : ℚ) : ℚ :=
  (List.range (n + 1)).foldl
    (fun value i =>
      value + nCr n i * (1 - q) ^ (n - i) * q ^ i * ((pts.getD (start + i) default).y)) 0

/-- Body of the `curveFunction` closure built by `createBezierCurveFunction`
for a non-empty point list: clamp below 0 / above 1 to the first / last `y`,
otherwise run the anchor scan and evaluate the Bernstein sum on the local
progress `(p - start.percentage) / (stop.percentage - start.percentage)`. -/
def bezierCore (pts : List BezierPoint) (p : ℚ) : ℚ :=
  if p < 0 then (pts.getD 0 default).y
  else if p > 1 then (pts.getD (pts.length - 1) default).y
  else
    let sc := scanAnchors p pts
    let n := sc.2 - sc.1
    let calculatedPercentage :=
      (p - ((pts.getD sc.1 default).percentage.getD 0)) /
        (((pts.getD sc.2 default).percentage.getD 0) -
          ((pts.getD sc.1 default).percentage.getD 0))
    bernsteinFold pts sc.1 n calculatedPercentage

/-- Evaluating the curve function.  On an empty control-point list every
branch of the closure dereferences `bezierPoints[0]` or
`bezierPoints[length-1]`, i.e. `undefined`, so the call throws a `TypeError`;
this is the `Except.error` case. -/
def bezierEval (pts : List BezierPoint) (p : ℚ) : Except String ℚ :=
  match pts with
  | [] => .error "TypeError: undefined bezier point"
  | _ :: _ => .ok (bezierCore pts p)

/-- The tag checked by `getCurveFunctionFromConfig`
(`lifetimeCurve.type === LifeTimeCurve.BEZIER / EASING`); `other` stands for
any unrecognized tag. -/
inductive CurveTypeTag
  | bezier
  | easing
  | other
deriving DecidableEq, Repr

/-- A `LifetimeCurve` configuration record: the runtime shape
`{type, bezierPoints, curveFunction, scale?}` from `types.ts`. -/
structure LifetimeCurve where
  type : CurveTypeTag
  bezierPoints : List BezierPoint := []
  curveFunction : ℚ → ℚ := fun _ => 0
  scale : Option ℚ := none

/-- `getCurveFunctionFromConfig` from `three-particles-utils.ts`: a Bézier
curve compiles to the cached curve function, an easing curve returns its
`curveFunction` field, anything else throws
`Unsupported value type: ${lifetimeCurve}`. -/
def getCurveFunctionFromConfig (lifetimeCurve : LifetimeCurve) :
    Except String (ℚ → Except String ℚ) :=
  match lifetimeCurve.type with
  | .bezier => .ok (bezierEval lifetimeCurve.bezierPoints)
  | .easing => .ok (fun t => .ok (lifetimeCurve.curveFunction t))
  | .other => .error "Unsupported value type"

/-- The `Constant | RandomBetweenTwoConstants | LifetimeCurve` union that
`calculateValue` dispatches on.  `randomBetween` keeps its `min`/`max`
fields optional exactly as in `types.ts`. -/
inductive ConfigValue
  | constant (value : ℚ)
  | randomBetween (min max : Option ℚ)
  | curve (lifetimeCurve : LifetimeCurve)

/-- `THREE.MathUtils.randFloat(low, high)` with the consumed random draw `r`
made explicit: `low + r * (high - low)`. -/
def randFloat (low high r : ℚ) : ℚ :=
  low + r * (high - low)

/-- `calculateValue` from `three-particles-utils.ts`.  The random source is
the stream `rng` together with the index `k` of its next unconsumed value;
the returned index says how many draws were consumed.  A number is returned
unchanged; a `min`/`max` record returns `min ?? 0` without drawing when
`min === max` and otherwise one uniform draw; a lifetime curve evaluates its
curve function at `time` and multiplies by `scale ?? 1`. -/
def calculateValue (value : ConfigValue) (rng : ℕ → ℚ) (k : ℕ) (time : ℚ := 0) :
    Except String (ℚ × ℕ) :=
  match value with
  | .constant c => .ok (c, k)
  | .randomBetween mn mx =>
    if mn = mx then .ok (mn.getD 0, k)
    else .ok (randFloat (mn.getD 0) (mx.getD 1) (rng k), k + 1)
  | .curve lifetimeCurve =>
    match getCurveFunctionFromConfig lifetimeCurve with
    | .error e => .error e
    | .ok f =>
      match f time with
      | .error e => .error e
      | .ok v => .ok (v * lifetimeCurve.scale.getD 1, k)

/-! ### Bézier curve cache (`three-particles-bezier.ts`)

The module-level `cache` array is modelled as explicit state.  JavaScript
reference identities are modelled as numeric tokens: `bezierPoints` holds the
identity of the control-point array passed by the caller, and
`curveFunction` holds the identity of the evaluator closure stored in the
entry (the cache allocates a fresh closure for every new entry, modelled by
the `nextFunctionId` counter). -/

/-- One entry of the module-level `cache` array. -/
structure CacheEntry where
  bezierPoints : ℕ
  curveFunction : ℕ
  referencedBy : List ℕ
deriving DecidableEq, Repr

/-- The module-level cache state: the `cache` array plus the allocator for
closure identities. -/
structure BezierCache where
  entries : List CacheEntry
  nextFunctionId : ℕ
deriving DecidableEq, Repr

/-- `cache.find((item) => item.bezierPoints === bezierPoints)` followed by the
push of `particleSystemId` into `referencedBy` when missing: returns the found
entry's curve function and the updated entry list, or `none` when no entry
matches. -/
def findAndAddRef (particleSystemId ptsId : ℕ) : List CacheEntry → Option (ℕ × List CacheEntry)
  | [] => none
  | e :: rest =>
    if e.bezierPoints = ptsId then
      some (e.curveFunction,
        (if particleSystemId ∈ e.referencedBy then e
         else { e with referencedBy := e.referencedBy ++ [particleSystemId] }) :: rest)
    else
      match findAndAddRef particleSystemId ptsId rest with
      | some (fnId, rest') => some (fnId, e :: rest')
      | none => none

/-- `createBezierCurveFunction` at the cache level: reuse the entry whose
`bezierPoints` has the same identity, otherwise push a fresh entry
referenced by the calling system only. -/
def createBezierCurveFunction (particleSystemId ptsId : ℕ) (c : BezierCache) :
    ℕ × BezierCache :=
  match findAndAddRef particleSystemId ptsId c.entries with
  | some (fnId, entries') => (fnId, { c with entries := entries' })
  | none =>
    (c.nextFunctionId,
      { entries := c.entries ++
          [{ bezierPoints := ptsId, curveFunction := c.nextFunctionId,
             referencedBy := [particleSystemId] }],
        nextFunctionId := c.nextFunctionId + 1 })

/-- One iteration of the `while (true)` loop of `removeBezierCurveFunction`:
find the first entry whose `referencedBy` includes the system id, filter the
id out, splice the entry away when its reference list becomes empty.
Returns `none` when `findIndex` yields `-1` (loop exit). -/
def removeOwnerOnce (particleSystemId : ℕ) : List CacheEntry → Option (List CacheEntry)
  | [] => none
  | e :: rest =>
    if particleSystemId ∈ e.referencedBy then
      some
        (if (e.referencedBy.filter (fun id => id ≠ particleSystemId)).isEmpty then rest
         else { e with referencedBy := e.referencedBy.filter (fun id => id ≠ particleSystemId) } :: rest)
    else
      match removeOwnerOnce particleSystemId rest with
      | some rest' => some (e :: rest')
      | none => none

/-- The `while (true)` loop, with fuel.  Each productive iteration strictly
decreases the number of entries referencing the id, which is at most the
entry count, so `entries.length` fuel always reaches the loop's exit. -/
def removeLoop (particleSystemId : ℕ) : ℕ → List CacheEntry → List CacheEntry
  | 0, entries => entries
  | fuel + 1, entries =>
    match removeOwnerOnce particleSystemId entries with
    | some entries' => removeLoop particleSystemId fuel entries'
    | none => entries

/-- `removeBezierCurveFunction(particleSystemId)`. -/
def removeBezierCurveFunction (particleSystemId : ℕ) (c : BezierCache) : BezierCache :=
  { c with entries := removeLoop particleSystemId c.entries.length c.entries }

/-- Number of cache entries whose reference list contains the id (the loop
variant of `removeBezierCurveFunction`). -/
def countReferencing (particleSystemId : ℕ) (entries : List CacheEntry) : ℕ :=
  entries.countP (fun e => particleSystemId ∈ e.referencedBy)

/-- The curve function returned for a points identity by a plain lookup:
`cache.find(...)` without mutation. -/
def findFn (ptsId : ℕ) (entries : List CacheEntry) : Option ℕ :=
  (entries.find? (fun e => e.bezierPoints = ptsId)).map (fun e => e.curveFunction)

/-! ### Particle pool spawn loop (`three-particles.ts`, `updateParticleSystemInstance`)

The activation flags of the fixed-capacity pool are a `List Bool`; the spawn
loop performs, for each needed particle, a linear scan for the first inactive
slot and activates it, silently doing nothing when every slot is active. -/

/-- The inner `for (let j = 0; ...)` scan: index of the first inactive slot. -/
def firstInactiveIndex : List Bool → Option ℕ
  | [] => none
  | true :: rest => (firstInactiveIndex rest).map (· + 1)
  | false :: _ => some 0

/-- The outer `for (let i = 0; i < neededParticles; i++)` loop over the
activation flags: each iteration rescans and activates the first inactive
slot when one exists. -/
def spawnLoop : ℕ → List Bool → List Bool
  | 0, isActiveArr => isActiveArr
  | needed + 1, isActiveArr =>
    match firstInactiveIndex isActiveArr with
    | some j => spawnLoop needed (isActiveArr.set j true)
    | none => spawnLoop needed isActiveArr

/-- The aging pass of the per-frame update restricted to the activation
flags: an active slot whose particle lifetime exceeded its start lifetime is
deactivated (`expire i` says whether slot `i` expired this frame). -/
def deactivationPass (expire : ℕ → Bool) : ℕ → List Bool → List Bool
  | _, [] => []
  | i, b :: rest => (b && !(expire i)) :: deactivationPass expire (i + 1) rest

/-- One frame's effect on the activation flags: aging pass then spawn loop. -/
def updateStep (expire : ℕ → Bool) (needed : ℕ) (isActiveArr : List Bool) : List Bool :=
  spawnLoop needed (deactivationPass expire 0 isActiveArr)

/-- Number of simultaneously active slots. -/
def countActive (isActiveArr : List Bool) : ℕ := isActiveArr.count true

/-- Number of inactive (free) slots. -/
def countInactive (isActiveArr : List Bool) : ℕ := isActiveArr.count false

/-! ### Burst emission (`updateParticleSystemInstance`, burst block) -/

/-- A configured burst: `{time, count, cycles?, interval?, probability?}`. -/
structure Burst where
  time : ℚ
  count : ConfigValue
  cycles : Option ℕ := none
  interval : Option ℚ := none
  probability : Option ℚ := none

/-- Per-burst runtime state `{cyclesExecuted, lastCycleTime, probabilityPassed}`. -/
structure BurstState where
  cyclesExecuted : ℕ := 0
  lastCycleTime : ℚ := 0
  probabilityPassed : Bool := false
deriving DecidableEq, Repr

/-- One burst's processing inside the per-frame loop over `emission.bursts`:
reset the runtime state on loop wrap, skip exhausted bursts, and when the
normalized loop time reaches `burstTime + cyclesExecuted * interval` roll the
probability on the first cycle only, add `floor(count)` needed particles when
the roll passed, and always advance `cyclesExecuted` and `lastCycleTime`.
Returns the new state, the number of particles requested by this burst and
the next random index. -/
def processBurst (looping : Bool) (currentIterationTime tNorm : ℚ) (rng : ℕ → ℚ) (k : ℕ)
    (burst : Burst) (state : BurstState) : Except String (BurstState × ℤ × ℕ) :=
  let burstTimeMs := burst.time * 1000
  let cycles := burst.cycles.getD 1
  let intervalMs := burst.interval.getD 0 * 1000
  let probability := burst.probability.getD 1
  let state1 :=
    if looping ∧ currentIterationTime < burstTimeMs ∧ state.cyclesExecuted > 0 then
      { cyclesExecuted := 0, lastCycleTime := 0, probabilityPassed := false }
    else state
  if state1.cyclesExecuted ≥ cycles then .ok (state1, 0, k)
  else
    let nextCycleTime := burstTimeMs + (state1.cyclesExecuted : ℚ) * intervalMs
    if currentIterationTime ≥ nextCycleTime then
      let passed :=
        if state1.cyclesExecuted = 0 then decide (rng k < probability)
        else state1.probabilityPassed
      let k1 := if state1.cyclesExecuted = 0 then k + 1 else k
      if passed then
        match calculateValue burst.count rng k1 tNorm with
        | .error e => .error e
        | .ok (v, k2) =>
          .ok ({ cyclesExecuted := state1.cyclesExecuted + 1,
                 lastCycleTime := currentIterationTime,
                 probabilityPassed := passed }, Int.floor v, k2)
      else
        .ok ({ cyclesExecuted := state1.cyclesExecuted + 1,
               lastCycleTime := currentIterationTime,
               probabilityPassed := passed }, 0, k1)
    else .ok (state1, 0, k)

/-! ### Distance based emission (`updateParticleSystemInstance`) -/

/-- The distance-based part of the emission scheduler: the needed particle
count `floor(distance / (1 / rate))` (0 unless both the rate and the
accumulated distance are positive) and the new value of the accumulator
`generalData.distanceFromLastEmitByDistance`, which is reset to 0 exactly
when the rate is positive and at least one particle was needed. -/
def updateEmissionByDistance (rateOverDistance distanceFromLastEmit : ℚ) : ℤ × ℚ :=
  let neededParticlesByDistance :=
    if rateOverDistance > 0 ∧ distanceFromLastEmit > 0 then
      Int.floor (distanceFromLastEmit / (1 / rateOverDistance))
    else 0
  (neededParticlesByDistance,
   if rateOverDistance > 0 ∧ neededParticlesByDistance ≥ 1 then 0
   else distanceFromLastEmit)

/-! ### Particle slot activation and deactivation (`three-particles.ts`)

The per-particle attribute arrays (`isActive`, `colorR/G/B/A`, the
`startValues` caches, `creationTimes`, positions, velocities, ...) are
gathered into one record per slot; `deactivateParticle` and
`activateParticle` act on one slot.  The shape emitter invoked by
`calculatePositionAndVelocity` and the `applyModifiers` call performed at the
end of activation are taken as parameters (`sampler`, `modifier`): the claims
settled here are about which fields activation and deactivation write, not
about the values those collaborators produce. -/

/-- Decidable equality for `Except` results, used to evaluate the embedded
functions on concrete inputs. -/
instance {ε α : Type} [DecidableEq ε] [DecidableEq α] : DecidableEq (Except ε α) := fun a b =>
  match a, b with
  | .error x, .error y =>
    if h : x = y then .isTrue (by rw [h]) else .isFalse (by simp [h])
  | .ok x, .ok y =>
    if h : x = y then .isTrue (by rw [h]) else .isFalse (by simp [h])
  | .error _, .ok _ => .isFalse (by simp)
  | .ok _, .error _ => .isFalse (by simp)

/-- A vector of three rationals. -/
structure Vec3Q where
  x : ℚ
  y : ℚ
  z : ℚ
deriving DecidableEq, Repr

/-- All per-slot state written by activation or deactivation. -/
structure ParticleSlot where
  isActive : Bool
  creationTime : ℚ
  noiseOffset : ℚ
  colorR : ℚ
  colorG : ℚ
  colorB : ℚ
  colorA : ℚ
  startColorR : ℚ
  startColorG : ℚ
  startColorB : ℚ
  startFrame : ℚ
  startLifetime : ℚ
  size : ℚ
  startSize : ℚ
  startOpacity : ℚ
  rotation : ℚ
  rotationOverLifetime : ℚ
  position : Vec3Q
  startPosition : Vec3Q
  velocity : Vec3Q
  linearSpeed : Vec3Q
  orbitalSpeed : Vec3Q
  orbitalPositionOffset : Vec3Q
  lifetime : ℚ
deriving DecidableEq, Repr

/-- `deactivateParticle`: clear the activation flag and zero the visible
opacity (`colorA`); nothing else is touched. -/
def deactivateParticle (s : ParticleSlot) : ParticleSlot :=
  { s with isActive := false, colorA := 0 }

/-- An RGB triple from the `startColor` configuration. -/
structure Rgb where
  r : ℚ
  g : ℚ
  b : ℚ
deriving DecidableEq, Repr

/-- The slice of the normalized configuration read by `activateParticle`.
The `has...` flags model the presence of the optional runtime arrays
(`generalData.noise.offsets`, `generalData.linearVelocityData`,
`generalData.orbitalVelocityData`) and of
`normalizedConfig.rotationOverLifetime.isActive`; the `Option ConfigValue`
fields model the truthiness tests on the per-axis velocity configuration and
on `textureSheetAnimation.startFrame`. -/
structure ActivationConfig where
  hasNoiseOffsets : Bool
  startColorMin : Rgb
  startColorMax : Rgb
  startFrame : Option ConfigValue
  startLifetime : ConfigValue
  startSize : ConfigValue
  startOpacity : ConfigValue
  startRotation : ConfigValue
  rotationOverLifetimeActive : Bool
  rotationOverLifetimeMin : ℚ
  rotationOverLifetimeMax : ℚ
  hasLinearVelocityData : Bool
  linearX : Option ConfigValue
  linearY : Option ConfigValue
  linearZ : Option ConfigValue
  hasOrbitalVelocityData : Bool
  orbitalX : Option ConfigValue
  orbitalY : Option ConfigValue
  orbitalZ : Option ConfigValue

/-- Evaluation of an optional value expression, as in the source ternaries
`cfgValue ? calculateValue(id, cfgValue, 0) : 0`. -/
def optValue (v : Option ConfigValue) (rng : ℕ → ℚ) (k : ℕ) : Except String (ℚ × ℕ) :=
  match v with
  | some cv => calculateValue cv rng k 0
  | none => .ok (0, k)

/-- A shape emitter invocation (`calculatePositionAndVelocity`): from the
random stream and the next index it produces the spawn-local position and
velocity and the next unconsumed index. -/
def SamplerFn : Type :=
  (ℕ → ℚ) → ℕ → (Vec3Q × Vec3Q) × ℕ

/-- The three per-axis writes of `linearVelocityData[i].speed.set(...)` or
`orbitalVelocityData[i].speed.set(...)`: each axis evaluates its optional
value expression; when the runtime array is absent nothing is written and
the slot keeps `fallback`. -/
def calcAxisTriple (hasData : Bool) (vx vy vz : Option ConfigValue) (rng : ℕ → ℚ) (k : ℕ)
    (fallback : Vec3Q) : Except String (Vec3Q × ℕ) :=
  if hasData then
    match optValue vx rng k with
    | .error e => .error e
    | .ok rx =>
      match optValue vy rng rx.2 with
      | .error e => .error e
      | .ok ry =>
        match optValue vz rng ry.2 with
        | .error e => .error e
        | .ok rz => .ok (⟨rx.1, ry.1, rz.1⟩, rz.2)
  else .ok (fallback, k)

/-- The start-value writes of `activateParticle` (everything before the
closing `applyModifiers` call), in source order: activation flag, creation
time, optional noise offset, one shared random ratio for the three color
channels, start color caches, start frame, start lifetime (seconds to
milliseconds), start size, start opacity (also written to `colorA`), start
rotation, optional rotation-over-lifetime rate, shape emitter invocation,
absolute position `spawnPosition + localOffset`, optional linear and orbital
velocity state, and age reset. -/
def activateStartValues (cfg : ActivationConfig) (sampler : SamplerFn) (rng : ℕ → ℚ) (k : ℕ)
    (activationTime tNorm : ℚ) (position : Vec3Q) (s : ParticleSlot) :
    Except String (ParticleSlot × ℕ) :=
  let noiseRes := if cfg.hasNoiseOffsets then (rng k * 100, k + 1) else (s.noiseOffset, k)
  let colorRnd := rng noiseRes.2
  let kc := noiseRes.2 + 1
  let colorR := cfg.startColorMin.r + colorRnd * (cfg.startColorMax.r - cfg.startColorMin.r)
  let colorG := cfg.startColorMin.g + colorRnd * (cfg.startColorMax.g - cfg.startColorMin.g)
  let colorB := cfg.startColorMin.b + colorRnd * (cfg.startColorMax.b - cfg.startColorMin.b)
  match optValue cfg.startFrame rng kc with
  | .error e => .error e
  | .ok sfRes =>
    match calculateValue cfg.startLifetime rng sfRes.2 tNorm with
    | .error e => .error e
    | .ok lifeRes =>
      match calculateValue cfg.startSize rng lifeRes.2 tNorm with
      | .error e => .error e
      | .ok sizeRes =>
        match calculateValue cfg.startOpacity rng sizeRes.2 tNorm with
        | .error e => .error e
        | .ok opacityRes =>
          match calculateValue cfg.startRotation rng opacityRes.2 tNorm with
          | .error e => .error e
          | .ok rotRes =>
            let rolRes :=
              if cfg.rotationOverLifetimeActive then
                (randFloat cfg.rotationOverLifetimeMin cfg.rotationOverLifetimeMax (rng rotRes.2),
                 rotRes.2 + 1)
              else (s.rotationOverLifetime, rotRes.2)
            let sampleRes := sampler rng rolRes.2
            let startPos := sampleRes.1.1
            match calcAxisTriple cfg.hasLinearVelocityData cfg.linearX cfg.linearY cfg.linearZ
                rng sampleRes.2 s.linearSpeed with
            | .error e => .error e
            | .ok linRes =>
              match calcAxisTriple cfg.hasOrbitalVelocityData cfg.orbitalX cfg.orbitalY
                  cfg.orbitalZ rng linRes.2 s.orbitalSpeed with
              | .error e => .error e
              | .ok orbRes =>
                .ok
                  ({ isActive := true,
                     creationTime := activationTime,
                     noiseOffset := noiseRes.1,
                     colorR := colorR, colorG := colorG, colorB := colorB,
                     colorA := opacityRes.1,
                     startColorR := colorR, startColorG := colorG, startColorB := colorB,
                     startFrame := sfRes.1,
                     startLifetime := lifeRes.1 * 1000,
                     size := sizeRes.1, startSize := sizeRes.1,
                     startOpacity := opacityRes.1,
                     rotation := rotRes.1,
                     rotationOverLifetime := rolRes.1,
                     position := ⟨position.x + startPos.x, position.y + startPos.y,
                                  position.z + startPos.z⟩,
                     startPosition := startPos,
                     velocity := sampleRes.1.2,
                     linearSpeed := linRes.1,
                     orbitalSpeed := orbRes.1,
                     orbitalPositionOffset :=
                       if cfg.hasOrbitalVelocityData then startPos else s.orbitalPositionOffset,
                     lifetime := 0 }, orbRes.2)

/-- `activateParticle`: the start-value writes followed by the immediate
`applyModifiers` invocation at `delta = 0`, `particleLifetimePercentage = 0`,
modelled by the `modifier` parameter acting on the freshly written slot. -/
def activateParticle (cfg : ActivationConfig) (sampler : SamplerFn)
    (modifier : ParticleSlot → ParticleSlot) (rng : ℕ → ℚ) (k : ℕ)
    (activationTime tNorm : ℚ) (position : Vec3Q) (s : ParticleSlot) :
    Except String (ParticleSlot × ℕ) :=
  match activateStartValues cfg sampler rng k activationTime tNorm position s with
  | .error e => .error e
  | .ok r => .ok (modifier r.1, r.2)

/-! ### Sphere shape emitter (`three-particles-utils.ts`)

`calculateRandomPositionAndVelocityOnSphere` uses `Math.acos`, `Math.sin`,
`Math.cos` and `Math.sqrt`, so this component is modelled over `ℝ`.  The
three `Math.random()` draws are the explicit arguments `rand0`, `rand1`,
`rand2`. -/

/-- A vector of three reals. -/
structure Vec3R where
  x : ℝ
  y : ℝ
  z : ℝ

/-- A quaternion `{x, y, z, w}`. -/
structure QuatR where
  x : ℝ
  y : ℝ
  z : ℝ
  w : ℝ

/-- `THREE.Vector3.applyQuaternion`: `t = 2 * cross(q.xyz, v)`;
`v + q.w * t + cross(q.xyz, t)`. -/
def applyQuaternion (q : QuatR) (v : Vec3R) : Vec3R :=
  let tx := 2 * (q.y * v.z - q.z * v.y)
  let ty := 2 * (q.z * v.x - q.x * v.z)
  let tz := 2 * (q.x * v.y - q.y * v.x)
  ⟨v.x + q.w * tx + q.y * tz - q.z * ty,
   v.y + q.w * ty + q.z * tx - q.x * tz,
   v.z + q.w * tz + q.x * ty - q.y * tx⟩

/-- `THREE.Vector3.length`. -/
noncomputable def vecLength (v : Vec3R) : ℝ :=
  Real.sqrt (v.x * v.x + v.y * v.y + v.z * v.z)

/-- The spawn-local sphere position before the emitter rotation is applied:
spherical-coordinate sampling scaled by `radius`, with `radiusThickness`
interpolating between shell and volume and `arc` restricting the azimuth. -/
noncomputable def sphereRawPosition (radius radiusThickness arc rand0 rand1 rand2 : ℝ) :
    Vec3R :=
  let u := rand0 * (arc / 360)
  let v := rand1
  let randomizedDistanceRatio := rand2
  let theta := 2 * Real.pi * u
  let phi := Real.arccos (2 * v - 1)
  let sinPhi := Real.sin phi
  let xDirection := sinPhi * Real.cos theta
  let yDirection := sinPhi * Real.sin theta
  let zDirection := Real.cos phi
  let normalizedThickness := 1 - radiusThickness
  ⟨radius * normalizedThickness * xDirection +
     radius * radiusThickness * randomizedDistanceRatio * xDirection,
   radius * normalizedThickness * yDirection +
     radius * radiusThickness * randomizedDistanceRatio * yDirection,
   radius * normalizedThickness * zDirection +
     radius * radiusThickness * randomizedDistanceRatio * zDirection⟩

/-- `calculateRandomPositionAndVelocityOnSphere`: sample the raw position,
rotate it by the emitter quaternion, build the velocity as
`position * (1 / position.length()) * speed` from the rotated position, and
apply the quaternion to the velocity as well.  Returns the final
`(position, velocity)` pair. -/
noncomputable def calculateRandomPositionAndVelocityOnSphere (quaternion : QuatR)
    (speed radius radiusThickness arc rand0 rand1 rand2 : ℝ) : Vec3R × Vec3R :=
  let position := applyQuaternion quaternion
    (sphereRawPosition radius radiusThickness arc rand0 rand1 rand2)
  let speedMultiplierByPosition := 1 / vecLength position
  let velocity : Vec3R :=
    ⟨position.x * speedMultiplierByPosition * speed,
     position.y * speedMultiplierByPosition * speed,
     position.z * speedMultiplierByPosition * speed⟩
  (position, applyQuaternion quaternion velocity)

/-! ### Concrete inputs used by witnesses -/

/-- A small well-formed Bézier curve: anchors at percentages 0 and 1 with one
untagged interior control point. -/
def cpts : List BezierPoint :=
  [{ x := 0, y := 0, percentage := some 0 },
   { x := 1/2, y := 1, percentage := none },
   { x := 1, y := 1/2, percentage := some 1 }]

/-- A particle slot with arbitrary stale contents. -/
def staleSlot : ParticleSlot :=
  { isActive := true, creationTime := 5, noiseOffset := 7,
    colorR := 1, colorG := 2, colorB := 3, colorA := 4,
    startColorR := 1, startColorG := 2, startColorB := 3,
    startFrame := 9, startLifetime := 11, size := 13, startSize := 13,
    startOpacity := 15, rotation := 17, rotationOverLifetime := 19,
    position := ⟨1, 2, 3⟩, startPosition := ⟨4, 5, 6⟩, velocity := ⟨7, 8, 9⟩,
    linearSpeed := ⟨1, 1, 1⟩, orbitalSpeed := ⟨2, 2, 2⟩,
    orbitalPositionOffset := ⟨3, 3, 3⟩, lifetime := 21 }

/-- A second slot differing from `staleSlot` in every stale field. -/
def blankSlot : ParticleSlot :=
  { isActive := false, creationTime := 0, noiseOffset := 0,
    colorR := 0, colorG := 0, colorB := 0, colorA := 0,
    startColorR := 0, startColorG := 0, startColorB := 0,
    startFrame := 0, startLifetime := 0, size := 0, startSize := 0,
    startOpacity := 0, rotation := 0, rotationOverLifetime := 0,
    position := ⟨0, 0, 0⟩, startPosition := ⟨0, 0, 0⟩, velocity := ⟨0, 0, 0⟩,
    linearSpeed := ⟨0, 0, 0⟩, orbitalSpeed := ⟨0, 0, 0⟩,
    orbitalPositionOffset := ⟨0, 0, 0⟩, lifetime := 0 }

/-- A fully-enabled activation configuration with constant expressions. -/
def witnessConfig : ActivationConfig :=
  { hasNoiseOffsets := true,
    startColorMin := ⟨1, 0, 0⟩, startColorMax := ⟨1, 1, 0⟩,
    startFrame := some (.constant 2),
    startLifetime := .constant 5,
    startSize := .constant 3,
    startOpacity := .constant 1,
    startRotation := .constant 0,
    rotationOverLifetimeActive := true,
    rotationOverLifetimeMin := 0, rotationOverLifetimeMax := 1,
    hasLinearVelocityData := true,
    linearX := some (.constant 1), linearY := none, linearZ := none,
    hasOrbitalVelocityData := true,
    orbitalX := none, orbitalY := some (.constant 2), orbitalZ := none }

/-- A trivial shape emitter used by witnesses. -/
def witnessSampler : SamplerFn :=
  fun _ k => ((⟨1, 2, 3⟩, ⟨0, 0, 1⟩), k)

/-- The slot produced by activating under `witnessConfig`, `witnessSampler`
and the constant-half random stream. -/
def witnessActivated : ParticleSlot :=
  { isActive := true, creationTime := 0, noiseOffset := 50,
    colorR := 1, colorG := 1/2, colorB := 0, colorA := 1,
    startColorR := 1, startColorG := 1/2, startColorB := 0,
    startFrame := 2, startLifetime := 5000, size := 3, startSize := 3,
    startOpacity := 1, rotation := 0, rotationOverLifetime := 1/2,
    position := ⟨1, 2, 3⟩, startPosition := ⟨1, 2, 3⟩, velocity := ⟨0, 0, 1⟩,
    linearSpeed := ⟨1, 0, 0⟩, orbitalSpeed := ⟨0, 2, 0⟩,
    orbitalPositionOffset := ⟨1, 2, 3⟩, lifetime := 0 }

/-! ## Theorems -/

/-- C2: evaluating a `RandomBetweenTwoConstants` whose `min` equals `max`
returns exactly `min`, leaves the random index untouched (no random call),
and the result is independent of the random stream, so two evaluations
always yield the same value. -/
theorem C2_random_range_min_eq_max (m : ℚ) (rng : ℕ → ℚ) (k : ℕ) (t : ℚ) :
    calculateValue (.randomBetween (some m) (some m)) rng k t = .ok (m, k) ∧
    (∀ rng' : ℕ → ℚ, ∀ k' : ℕ,
      (calculateValue (.randomBetween (some m) (some m)) rng k t).map Prod.fst
        = (calculateValue (.randomBetween (some m) (some m)) rng' k' t).map Prod.fst) := by
  constructor
  · simp [calculateValue]
  · intro rng' k'
    simp [calculateValue, Except.map]

/-- C9: a value that is none of the three recognized shapes fails at
evaluation time instead of defaulting: an unsupported curve type throws
`Unsupported value type`, and a Bézier curve with an empty control-point
list throws when its curve function dereferences `bezierPoints[0]`. -/
theorem C9_unrecognized_value_fails (pts : List BezierPoint) (f : ℚ → ℚ) (sc : Option ℚ)
    (rng : ℕ → ℚ) (k : ℕ) (t : ℚ) :
    calculateValue (.curve ⟨.other, pts, f, sc⟩) rng k t = .error "Unsupported value type" ∧
    calculateValue (.curve ⟨.bezier, [], f, sc⟩) rng k t
      = .error "TypeError: undefined bezier point" := by
  constructor <;> simp [calculateValue, getCurveFunctionFromConfig, bezierEval]

/-- C6: with a positive `rateOverDistance` and a nonnegative accumulated
distance, the distance-based spawn count is
`floor(accumulatedDistance / (1 / rateOverDistance))`; when that count is at
least 1 the accumulator resets to exactly 0, and when it is 0 the
accumulated distance is preserved unchanged. -/
theorem C6_distance_emission (rate dist : ℚ) (hrate : 0 < rate) (hdist : 0 ≤ dist) :
    (updateEmissionByDistance rate dist).1 = Int.floor (dist / (1 / rate)) ∧
    (1 ≤ (updateEmissionByDistance rate dist).1 → (updateEmissionByDistance rate dist).2 = 0) ∧
    ((updateEmissionByDistance rate dist).1 = 0 → (updateEmissionByDistance rate dist).2 = dist) := by
  rcases eq_or_lt_of_le hdist with hzero | hpos
  · have hcond : ¬(rate > 0 ∧ dist > 0) := by
      rw [← hzero]; simp
    refine ⟨?_, ?_, ?_⟩
    · simp [updateEmissionByDistance, hcond, ← hzero]
    · intro h1
      simp [updateEmissionByDistance, hcond] at h1
    · intro _
      simp [updateEmissionByDistance, hcond]
  · have hcond : rate > 0 ∧ dist > 0 := ⟨hrate, hpos⟩
    have hdiv : dist / (1 / rate) = dist * rate := by
      rw [div_div_eq_mul_div, div_one]
    refine ⟨?_, ?_, ?_⟩
    · simp [updateEmissionByDistance, hcond, hdiv]
    · intro h1
      simp [updateEmissionByDistance, hcond, hdiv] at h1 ⊢
      intro h2
      omega
    · intro h1
      simp [updateEmissionByDistance, hcond, hdiv] at h1 ⊢
      intro h2
      have h3 : (⌊dist * rate⌋ : ℤ) < 1 := by
        rw [Int.floor_lt]
        exact_mod_cast h1.2
      omega

/-- Witness for C6 at `rate = 2`, `dist = 3/4`: one whole unit is available,
so the count is `floor((3/4) / (1/2)) = 1` and the accumulator resets. -/
theorem C6_distance_emission_witness :
    (updateEmissionByDistance 2 (3/4)).1 = Int.floor ((3/4 : ℚ) / (1 / 2)) ∧
    (1 ≤ (updateEmissionByDistance 2 (3/4)).1 → (updateEmissionByDistance 2 (3/4)).2 = 0) ∧
    ((updateEmissionByDistance 2 (3/4)).1 = 0 → (updateEmissionByDistance 2 (3/4)).2 = 3/4) :=
  C6_distance_emission 2 (3/4) (by norm_num) (by norm_num)

/-- When the linear scan finds no inactive slot, every slot is active. -/
theorem firstInactiveIndex_eq_none {a : List Bool} (h : firstInactiveIndex a = none) :
    countInactive a = 0 := by
  induction a with
  | nil => rfl
  | cons b rest ih =>
    cases b with
    | false => simp [firstInactiveIndex] at h
    | true =>
      simp only [firstInactiveIndex, Option.map_eq_none'] at h
      simpa [countInactive, List.count_cons] using ih h

/-- The linear scan returns the index of an inactive slot. -/
theorem firstInactiveIndex_eq_some {a : List Bool} {j : ℕ}
    (h : firstInactiveIndex a = some j) : a.get? j = some false := by
  induction a generalizing j with
  | nil => simp [firstInactiveIndex] at h
  | cons b rest ih =>
    cases b with
    | false =>
      simp only [firstInactiveIndex, Option.some.injEq] at h
      subst h
      rfl
    | true =>
      simp only [firstInactiveIndex, Option.map_eq_some'] at h
      obtain ⟨j', hj', rfl⟩ := h
      simpa using ih hj'

/-- Activating an inactive slot raises the active count by one and lowers
the inactive count by one. -/
theorem count_set_true {a : List Bool} {j : ℕ} (h : a.get? j = some false) :
    countActive (a.set j true) = countActive a + 1 ∧
    countInactive a = countInactive (a.set j true) + 1 := by
  induction a generalizing j with
  | nil => simp at h
  | cons b rest ih =>
    cases j with
    | zero =>
      simp only [List.get?] at h
      obtain rfl : b = false := by injection h
      simp [countActive, countInactive, List.count_cons]
    | succ j' =>
      simp only [List.get?] at h
      obtain ⟨h1, h2⟩ := ih h
      cases b <;>
        simp [countActive, countInactive, List.count_cons, List.set] at h1 h2 ⊢ <;>
        omega

/-- The spawn loop never changes the pool size. -/
theorem spawnLoop_length (needed : ℕ) (a : List Bool) :
    (spawnLoop needed a).length = a.length := by
  induction needed generalizing a with
  | zero => rfl
  | succ n ih =>
    cases h : firstInactiveIndex a with
    | none => simpa [spawnLoop, h] using ih a
    | some j => simp [spawnLoop, h, ih, List.length_set]

/-- The spawn loop activates exactly `min needed (free slots)` particles:
requests beyond the number of inactive slots are dropped. -/
theorem spawnLoop_count (needed : ℕ) (a : List Bool) :
    countActive (spawnLoop needed a) = countActive a + min needed (countInactive a) := by
  induction needed generalizing a with
  | zero => simp [spawnLoop]
  | succ n ih =>
    cases h : firstInactiveIndex a with
    | none =>
      have h0 := firstInactiveIndex_eq_none h
      simp [spawnLoop, h, ih, h0]
    | some j =>
      have hget := firstInactiveIndex_eq_some h
      obtain ⟨h1, h2⟩ := count_set_true hget
      rw [spawnLoop, h, ih, h1, h2]
      omega

/-- The aging pass never changes the pool size. -/
theorem deactivationPass_length (expire : ℕ → Bool) (i : ℕ) (a : List Bool) :
    (deactivationPass expire i a).length = a.length := by
  induction a generalizing i with
  | nil => rfl
  | cons b rest ih => simp [deactivationPass, ih]

/-- C1: the pool is bounded by its capacity.  The spawn loop preserves the
pool size (no growth), activates exactly `min needed freeSlots` slots (the
excess requests of a frame are dropped, nothing is queued), never exceeds
the capacity, and any sequence of whole update steps (aging pass followed by
spawn loop) keeps the pool size constant and the active count at most the
capacity `N = isActiveArr.length`. -/
theorem C1_pool_capacity_bound :
    (∀ (needed : ℕ) (a : List Bool), (spawnLoop needed a).length = a.length) ∧
    (∀ (needed : ℕ) (a : List Bool),
      countActive (spawnLoop needed a) = countActive a + min needed (countInactive a)) ∧
    (∀ (needed : ℕ) (a : List Bool), countActive (spawnLoop needed a) ≤ a.length) ∧
    (∀ (steps : List ((ℕ → Bool) × ℕ)) (a : List Bool),
      (steps.foldl (fun acc st => updateStep st.1 st.2 acc) a).length = a.length ∧
      countActive (steps.foldl (fun acc st => updateStep st.1 st.2 acc) a) ≤ a.length) := by
  have hlen : ∀ (steps : List ((ℕ → Bool) × ℕ)) (a : List Bool),
      (steps.foldl (fun acc st => updateStep st.1 st.2 acc) a).length = a.length := by
    intro steps
    induction steps with
    | nil => intro a; rfl
    | cons st rest ih =>
      intro a
      have : (updateStep st.1 st.2 a).length = a.length := by
        rw [updateStep, spawnLoop_length, deactivationPass_length]
      simpa [this] using ih (updateStep st.1 st.2 a)
  refine ⟨spawnLoop_length, spawnLoop_count, ?_, ?_⟩
  · intro needed a
    calc countActive (spawnLoop needed a) ≤ (spawnLoop needed a).length :=
          List.count_le_length _ _
      _ = a.length := spawnLoop_length needed a
  · intro steps a
    refine ⟨hlen steps a, ?_⟩
    calc countActive (steps.foldl (fun acc st => updateStep st.1 st.2 acc) a)
        ≤ (steps.foldl (fun acc st => updateStep st.1 st.2 acc) a).length :=
          List.count_le_length _ _
      _ = a.length := hlen steps a

/-- A successful `findAndAddRef` returns exactly the curve function a plain
lookup finds, and the lookup result is unchanged in the updated entries. -/
theorem findAndAddRef_some_findFn (psId ptsId : ℕ) :
    ∀ (entries : List CacheEntry) (fn : ℕ) (entries' : List CacheEntry),
      findAndAddRef psId ptsId entries = some (fn, entries') →
      findFn ptsId entries = some fn ∧ findFn ptsId entries' = some fn := by
  intro entries
  induction entries with
  | nil => intro fn entries' h; simp [findAndAddRef] at h
  | cons e rest ih =>
    intro fn entries' h
    by_cases hb : e.bezierPoints = ptsId
    · rw [findAndAddRef, if_pos hb] at h
      simp only [Option.some.injEq, Prod.mk.injEq] at h
      obtain ⟨rfl, rfl⟩ := h
      constructor
      · simp [findFn, List.find?_cons_of_pos, hb]
      · by_cases hm : psId ∈ e.referencedBy <;>
          simp [findFn, List.find?_cons_of_pos, hb, hm]
    · rw [findAndAddRef, if_neg hb] at h
      cases hrec : findAndAddRef psId ptsId rest with
      | none => rw [hrec] at h; simp at h
      | some pr =>
        obtain ⟨fnId, rest'⟩ := pr
        rw [hrec] at h
        simp only [Option.some.injEq, Prod.mk.injEq] at h
        obtain ⟨rfl, rfl⟩ := h
        obtain ⟨h1, h2⟩ := ih fnId rest' hrec
        constructor
        · simp only [findFn, Option.map_eq_some'] at h1 ⊢
          obtain ⟨a, ha, hfn⟩ := h1
          exact ⟨a, by simp [List.find?, hb, ha], hfn⟩
        · simp only [findFn, Option.map_eq_some'] at h2 ⊢
          obtain ⟨a, ha, hfn⟩ := h2
          exact ⟨a, by simp [List.find?, hb, ha], hfn⟩

/-- `findAndAddRef` fails exactly when there is no matching cache entry. -/
theorem findAndAddRef_none_findFn (psId ptsId : ℕ) :
    ∀ entries : List CacheEntry,
      findAndAddRef psId ptsId entries = none → findFn ptsId entries = none := by
  intro entries
  induction entries with
  | nil => intro _; rfl
  | cons e rest ih =>
    intro h
    by_cases hb : e.bezierPoints = ptsId
    · rw [findAndAddRef, if_pos hb] at h
      simp at h
    · rw [findAndAddRef, if_neg hb] at h
      cases hrec : findAndAddRef psId ptsId rest with
      | none => simp [findFn, List.find?, hb]; simpa [findFn, Option.map_eq_none'] using ih hrec
      | some pr => obtain ⟨fnId, rest'⟩ := pr; rw [hrec] at h; simp at h

/-- When a matching entry exists, `findAndAddRef` succeeds and returns the
entry's stored curve function. -/
theorem findFn_some_findAndAddRef (ptsId : ℕ) :
    ∀ (entries : List CacheEntry) (fn : ℕ),
      findFn ptsId entries = some fn →
      ∀ psId : ℕ, ∃ entries', findAndAddRef psId ptsId entries = some (fn, entries') := by
  intro entries
  induction entries with
  | nil => intro fn h; simp [findFn] at h
  | cons e rest ih =>
    intro fn h psId
    by_cases hb : e.bezierPoints = ptsId
    · have hfn : e.curveFunction = fn := by
        simpa [findFn, List.find?, hb] using h
      exact ⟨_, by rw [findAndAddRef, if_pos hb, hfn]⟩
    · have hrest : findFn ptsId rest = some fn := by
        simpa [findFn, List.find?, hb] using h
      obtain ⟨rest', hrest'⟩ := ih fn hrest psId
      exact ⟨e :: rest', by rw [findAndAddRef, if_neg hb, hrest']⟩

/-- A lookup that fails on `entries` finds a freshly appended matching entry. -/
theorem findFn_append_new (ptsId : ℕ) (newE : CacheEntry) (hmatch : newE.bezierPoints = ptsId) :
    ∀ entries : List CacheEntry,
      findFn ptsId entries = none → findFn ptsId (entries ++ [newE]) = some newE.curveFunction := by
  intro entries
  induction entries with
  | nil => intro _; simp [findFn, List.find?, hmatch]
  | cons e rest ih =>
    intro h
    by_cases hb : e.bezierPoints = ptsId
    · simp [findFn, List.find?, hb] at h
    · have hrest : findFn ptsId rest = none := by
        simpa [findFn, List.find?, hb] using h
      simpa [findFn, List.find?, hb] using ih hrest

/-- When the removal loop's scan finds no entry, no entry references the id. -/
theorem removeOwnerOnce_none_spec (psId : ℕ) :
    ∀ entries : List CacheEntry,
      removeOwnerOnce psId entries = none → ∀ e ∈ entries, psId ∉ e.referencedBy := by
  intro entries
  induction entries with
  | nil => simp
  | cons e rest ih =>
    intro h e' he'
    by_cases hm : psId ∈ e.referencedBy
    · rw [removeOwnerOnce, if_pos hm] at h
      simp at h
    · rw [removeOwnerOnce, if_neg hm] at h
      cases hrec : removeOwnerOnce psId rest with
      | some rest' => rw [hrec] at h; simp at h
      | none =>
        rcases List.mem_cons.1 he' with rfl | hmem
        · exact hm
        · exact ih hrec e' hmem

/-- A productive iteration of the removal loop lowers the number of entries
referencing the id by exactly one. -/
theorem removeOwnerOnce_count (psId : ℕ) :
    ∀ (entries entries' : List CacheEntry),
      removeOwnerOnce psId entries = some entries' →
      countReferencing psId entries = countReferencing psId entries' + 1 := by
  intro entries
  induction entries with
  | nil => intro entries' h; simp [removeOwnerOnce] at h
  | cons e rest ih =>
    intro entries' h
    by_cases hm : psId ∈ e.referencedBy
    · rw [removeOwnerOnce, if_pos hm] at h
      have hnotin : psId ∉ e.referencedBy.filter (fun id => id ≠ psId) := by
        intro hx
        have := (List.mem_filter.1 hx).2
        simp at this
      simp only [Option.some.injEq] at h
      subst h
      by_cases hemp : (e.referencedBy.filter (fun id => id ≠ psId)).isEmpty
      · rw [if_pos hemp]
        simp [countReferencing, List.countP_cons, hm]
      · rw [if_neg hemp]
        simp [countReferencing, List.countP_cons, hm, hnotin]
    · rw [removeOwnerOnce, if_neg hm] at h
      cases hrec : removeOwnerOnce psId rest with
      | none => rw [hrec] at h; simp at h
      | some rest' =>
        rw [hrec] at h
        simp only [Option.some.injEq] at h
        subst h
        have := ih rest' hrec
        simp [countReferencing, List.countP_cons, hm] at this ⊢
        omega

/-- After the removal loop exhausts the entries referencing the id (which
`entries.length` fuel always permits), no entry references it any more. -/
theorem removeLoop_not_referenced (psId : ℕ) :
    ∀ (fuel : ℕ) (entries : List CacheEntry),
      countReferencing psId entries ≤ fuel →
      ∀ e ∈ removeLoop psId fuel entries, psId ∉ e.referencedBy := by
  intro fuel
  induction fuel with
  | zero =>
    intro entries h e he
    have h0 : countReferencing psId entries = 0 := Nat.le_zero.1 h
    have := List.countP_eq_zero.1 h0 e he
    simpa using this
  | succ n ih =>
    intro entries h e he
    cases hrec : removeOwnerOnce psId entries with
    | none =>
      rw [removeLoop, hrec] at he
      exact removeOwnerOnce_none_spec psId entries hrec e he
    | some entries' =>
      rw [removeLoop, hrec] at he
      have hc := removeOwnerOnce_count psId entries entries' hrec
      exact ih entries' (by omega) e he

/-- Every entry surviving one removal iteration descends from an original
entry: same points identity and a sub-list of the references. -/
theorem removeOwnerOnce_origin (psId : ℕ) :
    ∀ (entries entries' : List CacheEntry),
      removeOwnerOnce psId entries = some entries' →
      ∀ e' ∈ entries', ∃ e ∈ entries,
        e'.bezierPoints = e.bezierPoints ∧ e'.referencedBy ⊆ e.referencedBy := by
  intro entries
  induction entries with
  | nil => intro entries' h; simp [removeOwnerOnce] at h
  | cons e rest ih =>
    intro entries' h e' he'
    by_cases hm : psId ∈ e.referencedBy
    · rw [removeOwnerOnce, if_pos hm] at h
      simp only [Option.some.injEq] at h
      subst h
      by_cases hemp : (e.referencedBy.filter (fun id => id ≠ psId)).isEmpty
      · rw [if_pos hemp] at he'
        exact ⟨e', List.mem_cons_of_mem _ he', rfl, List.Subset.refl _⟩
      · rw [if_neg hemp] at he'
        rcases List.mem_cons.1 he' with rfl | hmem
        · exact ⟨e, List.mem_cons_self _ _, rfl, (List.filter_sublist _).subset⟩
        · exact ⟨e', List.mem_cons_of_mem _ hmem, rfl, List.Subset.refl _⟩
    · rw [removeOwnerOnce, if_neg hm] at h
      cases hrec : removeOwnerOnce psId rest with
      | none => rw [hrec] at h; simp at h
      | some rest' =>
        rw [hrec] at h
        simp only [Option.some.injEq] at h
        subst h
        rcases List.mem_cons.1 he' with rfl | hmem
        · exact ⟨e', List.mem_cons_self _ _, rfl, List.Subset.refl _⟩
        · obtain ⟨e0, he0, hpts, hsub⟩ := ih rest' hrec e' hmem
          exact ⟨e0, List.mem_cons_of_mem _ he0, hpts, hsub⟩

/-- `removeOwnerOnce_origin` lifted through the whole removal loop. -/
theorem removeLoop_origin (psId : ℕ) :
    ∀ (fuel : ℕ) (entries : List CacheEntry),
      ∀ e' ∈ removeLoop psId fuel entries, ∃ e ∈ entries,
        e'.bezierPoints = e.bezierPoints ∧ e'.referencedBy ⊆ e.referencedBy := by
  intro fuel
  induction fuel with
  | zero =>
    intro entries e' he'
    exact ⟨e', he', rfl, List.Subset.refl _⟩
  | succ n ih =>
    intro entries e' he'
    cases hrec : removeOwnerOnce psId entries with
    | none =>
      rw [removeLoop, hrec] at he'
      exact ⟨e', he', rfl, List.Subset.refl _⟩
    | some entries' =>
      rw [removeLoop, hrec] at he'
      obtain ⟨e1, he1, hpts1, hsub1⟩ := ih entries' e' he'
      obtain ⟨e0, he0, hpts0, hsub0⟩ := removeOwnerOnce_origin psId entries entries' hrec e1 he1
      exact ⟨e0, he0, hpts1.trans hpts0, hsub1.trans hsub0⟩

/-- One removal iteration never leaves an entry with an empty reference
list, provided no entry had one before. -/
theorem removeOwnerOnce_nonempty (psId : ℕ) :
    ∀ (entries entries' : List CacheEntry),
      (∀ e ∈ entries, e.referencedBy ≠ []) →
      removeOwnerOnce psId entries = some entries' →
      ∀ e' ∈ entries', e'.referencedBy ≠ [] := by
  intro entries
  induction entries with
  | nil => intro entries' _ h; simp [removeOwnerOnce] at h
  | cons e rest ih =>
    intro entries' hne h e' he'
    by_cases hm : psId ∈ e.referencedBy
    · rw [removeOwnerOnce, if_pos hm] at h
      simp only [Option.some.injEq] at h
      subst h
      by_cases hemp : (e.referencedBy.filter (fun id => id ≠ psId)).isEmpty
      · rw [if_pos hemp] at he'
        exact hne e' (List.mem_cons_of_mem _ he')
      · rw [if_neg hemp] at he'
        rcases List.mem_cons.1 he' with rfl | hmem
        · simpa [List.isEmpty_iff] using hemp
        · exact hne e' (List.mem_cons_of_mem _ hmem)
    · rw [removeOwnerOnce, if_neg hm] at h
      cases hrec : removeOwnerOnce psId rest with
      | none => rw [hrec] at h; simp at h
      | some rest' =>
        rw [hrec] at h
        simp only [Option.some.injEq] at h
        subst h
        rcases List.mem_cons.1 he' with rfl | hmem
        · exact hne e' (List.mem_cons_self _ _)
        · exact ih rest' (fun x hx => hne x (List.mem_cons_of_mem _ hx)) hrec e' hmem

/-- `removeOwnerOnce_nonempty` lifted through the whole removal loop. -/
theorem removeLoop_nonempty (psId : ℕ) :
    ∀ (fuel : ℕ) (entries : List CacheEntry),
      (∀ e ∈ entries, e.referencedBy ≠ []) →
      ∀ e' ∈ removeLoop psId fuel entries, e'.referencedBy ≠ [] := by
  intro fuel
  induction fuel with
  | zero => intro entries hne e' he'; exact hne e' he'
  | succ n ih =>
    intro entries hne e' he'
    cases hrec : removeOwnerOnce psId entries with
    | none => rw [removeLoop, hrec] at he'; exact hne e' he'
    | some entries' =>
      rw [removeLoop, hrec] at he'
      exact ih entries' (removeOwnerOnce_nonempty psId entries entries' hne hrec) e' he'

/-- Releasing every owner of a points identity leaves no cache entry for it. -/
theorem removeAllOwners (owners : List ℕ) :
    ∀ (c : BezierCache) (ptsId : ℕ),
      (∀ e ∈ c.entries, e.referencedBy ≠ []) →
      (∀ e ∈ c.entries, e.bezierPoints = ptsId → e.referencedBy ⊆ owners) →
      ∀ e ∈ (owners.foldl (fun acc o => removeBezierCurveFunction o acc) c).entries,
        e.bezierPoints ≠ ptsId := by
  induction owners with
  | nil =>
    intro c ptsId hne hsub e he hpts
    exact hne e he (List.eq_nil_iff_forall_not_mem.2
      (fun x hx => List.not_mem_nil x (hsub e he hpts hx)))
  | cons o rest ih =>
    intro c ptsId hne hsub e he
    have hne' : ∀ e' ∈ (removeBezierCurveFunction o c).entries, e'.referencedBy ≠ [] :=
      fun e' he' => removeLoop_nonempty o c.entries.length c.entries hne e' he'
    have hsub' : ∀ e' ∈ (removeBezierCurveFunction o c).entries,
        e'.bezierPoints = ptsId → e'.referencedBy ⊆ rest := by
      intro e' he' hpts x hx
      obtain ⟨e0, he0, hpts0, hsub0⟩ :=
        removeLoop_origin o c.entries.length c.entries e' he'
      have hxo : x ∈ o :: rest := hsub e0 he0 (hpts ▸ hpts0 ▸ rfl) (hsub0 hx)
      have hno : o ∉ e'.referencedBy :=
        removeLoop_not_referenced o c.entries.length c.entries
          (List.countP_le_length _) e' he'
      rcases List.mem_cons.1 hxo with rfl | hxr
      · exact absurd hx hno
      · exact hxr
    exact ih (removeBezierCurveFunction o c) ptsId hne' hsub' e he

/-- C5: (a) two consecutive cache calls with the identical points identity
return the same evaluator instance regardless of the owner ids; (b) a
release removes the owner id from every entry's reference list; (c) once
every owner of a points identity has released, no cache entry for that
identity remains (emptied entries are evicted). -/
theorem C5_bezier_cache :
    (∀ (id1 id2 ptsId : ℕ) (c : BezierCache),
      (createBezierCurveFunction id2 ptsId (createBezierCurveFunction id1 ptsId c).2).1
        = (createBezierCurveFunction id1 ptsId c).1) ∧
    (∀ (psId : ℕ) (c : BezierCache),
      ∀ e ∈ (removeBezierCurveFunction psId c).entries, psId ∉ e.referencedBy) ∧
    (∀ (owners : List ℕ) (c : BezierCache) (ptsId : ℕ),
      (∀ e ∈ c.entries, e.referencedBy ≠ []) →
      (∀ e ∈ c.entries, e.bezierPoints = ptsId → e.referencedBy ⊆ owners) →
      ∀ e ∈ (owners.foldl (fun acc o => removeBezierCurveFunction o acc) c).entries,
        e.bezierPoints ≠ ptsId) := by
  refine ⟨?_, ?_, removeAllOwners⟩
  · intro id1 id2 ptsId c
    cases h1 : findAndAddRef id1 ptsId c.entries with
    | some pr =>
      obtain ⟨fn, entries'⟩ := pr
      have hpost := (findAndAddRef_some_findFn id1 ptsId c.entries fn entries' h1).2
      obtain ⟨entries'', h2⟩ := findFn_some_findAndAddRef ptsId entries' fn hpost id2
      simp [createBezierCurveFunction, h1, h2]
    | none =>
      have hnone := findAndAddRef_none_findFn id1 ptsId c.entries h1
      have happ := findFn_append_new ptsId
        { bezierPoints := ptsId, curveFunction := c.nextFunctionId, referencedBy := [id1] }
        rfl c.entries hnone
      obtain ⟨entries'', h2⟩ := findFn_some_findAndAddRef ptsId _ _ happ id2
      simp [createBezierCurveFunction, h1, h2]
  · intro psId c e he
    exact removeLoop_not_referenced psId c.entries.length c.entries
      (List.countP_le_length _) e he

/-- Witness for C5: a cache holding the points identity 7 (owned by systems
1 and 2) and the points identity 9 (owned by system 3).  The second call for
identity 7 returns the first call's evaluator, releasing owner 1 leaves
entry `⟨7, 0, [2]⟩` without the owner, and releasing both owners leaves only
the identity-9 entry. -/
theorem C5_bezier_cache_witness :
    (createBezierCurveFunction 2 7 (createBezierCurveFunction 1 7 ⟨[], 0⟩).2).1
      = (createBezierCurveFunction 1 7 ⟨[], 0⟩).1 ∧
    (1 : ℕ) ∉ (CacheEntry.mk 7 0 [2]).referencedBy ∧
    (CacheEntry.mk 9 1 [3]).bezierPoints ≠ 7 := by
  refine ⟨C5_bezier_cache.1 1 2 7 ⟨[], 0⟩, ?_, ?_⟩
  · exact C5_bezier_cache.2.1 1
      (createBezierCurveFunction 3 9
        (createBezierCurveFunction 2 7 (createBezierCurveFunction 1 7 ⟨[], 0⟩).2).2).2
      ⟨7, 0, [2]⟩ (by decide)
  · exact C5_bezier_cache.2.2 [1, 2]
      (createBezierCurveFunction 3 9
        (createBezierCurveFunction 2 7 (createBezierCurveFunction 1 7 ⟨[], 0⟩).2).2).2
      7 (by decide) (by decide) ⟨9, 1, [3]⟩ (by decide)

/-- C3: (a) when a looping system's normalized loop time has wrapped below
the burst's scheduled time while cycles were already executed, the burst is
processed exactly as if its runtime state had been reset to
`{cyclesExecuted := 0, lastCycleTime := 0, probabilityPassed := false}`;
(b) in a frame with no wrap, remaining cycles and the cycle time reached,
the probability is rolled only when `cyclesExecuted = 0` (otherwise the
stored outcome is reused), `floor(count)` particles are requested exactly
when the outcome passed, and `cyclesExecuted` advances regardless. -/
theorem C3_burst_scheduling (looping : Bool) (t tN : ℚ) (rng : ℕ → ℚ) (k : ℕ)
    (burst : Burst) (state : BurstState) :
    (looping = true → t < burst.time * 1000 → 0 < state.cyclesExecuted →
      processBurst looping t tN rng k burst state
        = processBurst looping t tN rng k burst
            { cyclesExecuted := 0, lastCycleTime := 0, probabilityPassed := false }) ∧
    (∀ c : ℚ, burst.count = .constant c →
      ¬(looping = true ∧ t < burst.time * 1000 ∧ 0 < state.cyclesExecuted) →
      state.cyclesExecuted < burst.cycles.getD 1 →
      burst.time * 1000 + (state.cyclesExecuted : ℚ) * (burst.interval.getD 0 * 1000) ≤ t →
      processBurst looping t tN rng k burst state
        = .ok ({ cyclesExecuted := state.cyclesExecuted + 1,
                 lastCycleTime := t,
                 probabilityPassed :=
                   if state.cyclesExecuted = 0 then decide (rng k < burst.probability.getD 1)
                   else state.probabilityPassed },
               (if (if state.cyclesExecuted = 0
                    then decide (rng k < burst.probability.getD 1)
                    else state.probabilityPassed) = true then Int.floor c else 0),
               if state.cyclesExecuted = 0 then k + 1 else k)) := by
  constructor
  · intro hl ht hcyc
    simp only [processBurst]
    rw [if_pos (⟨hl, ht, hcyc⟩ :
      looping = true ∧ t < burst.time * 1000 ∧ state.cyclesExecuted > 0)]
    rw [if_neg (by simp :
      ¬(looping = true ∧ t < burst.time * 1000 ∧
        (BurstState.mk 0 0 false).cyclesExecuted > 0))]
  · intro c hc hnr hcyc ht
    simp only [processBurst]
    rw [if_neg hnr]
    rw [if_neg (by omega : ¬(state.cyclesExecuted ≥ burst.cycles.getD 1))]
    rw [if_pos ht]
    rw [hc]
    simp only [calculateValue]
    cases hpass : (if state.cyclesExecuted = 0 then decide (rng k < burst.probability.getD 1)
        else state.probabilityPassed) <;> simp [hpass]

/-- Witness for C3 with the burst
`{time: 1, count: 5, cycles: 3, interval: 1, probability: 1}` and runtime
state `{cyclesExecuted: 1, lastCycleTime: 0, probabilityPassed: true}`:
at normalized time 500 (wrap) the burst processes as freshly reset, and at
normalized time 2500 the second cycle fires, reusing the stored outcome and
requesting 5 particles. -/
theorem C3_burst_scheduling_witness :
    (processBurst true 500 0 (fun _ => 1/2) 0
        { time := 1, count := .constant 5, cycles := some 3,
          interval := some 1, probability := some 1 }
        { cyclesExecuted := 1, lastCycleTime := 0, probabilityPassed := true }
      = processBurst true 500 0 (fun _ => 1/2) 0
        { time := 1, count := .constant 5, cycles := some 3,
          interval := some 1, probability := some 1 }
        { cyclesExecuted := 0, lastCycleTime := 0, probabilityPassed := false }) ∧
    (processBurst true 2500 0 (fun _ => 1/2) 0
        { time := 1, count := .constant 5, cycles := some 3,
          interval := some 1, probability := some 1 }
        { cyclesExecuted := 1, lastCycleTime := 0, probabilityPassed := true }
      = .ok ({ cyclesExecuted := 2, lastCycleTime := 2500, probabilityPassed := true },
             5, 0)) := by
  constructor
  · exact (C3_burst_scheduling true 500 0 (fun _ => 1/2) 0
      { time := 1, count := .constant 5, cycles := some 3,
        interval := some 1, probability := some 1 }
      { cyclesExecuted := 1, lastCycleTime := 0, probabilityPassed := true }).1
      rfl (by norm_num) (by norm_num)
  · have h := (C3_burst_scheduling true 2500 0 (fun _ => 1/2) 0
      { time := 1, count := .constant 5, cycles := some 3,
        interval := some 1, probability := some 1 }
      { cyclesExecuted := 1, lastCycleTime := 0, probabilityPassed := true }).2
      5 rfl (by norm_num) (by norm_num) (by norm_num)
    simpa using h

/-- C8: deactivating a slot clears `isActive` and zeroes `colorA` and
touches nothing else; and activation (with the optional runtime arrays
present and rotation-over-lifetime active, so that every conditional write
fires) writes every slot field from the configuration, the random stream and
the spawn parameters alone — the result is identical no matter what stale
state the slot held, so no stale value carries over. -/
theorem C8_deactivate_reactivate :
    (∀ s : ParticleSlot,
      (deactivateParticle s).isActive = false ∧
      (deactivateParticle s).colorA = 0 ∧
      (deactivateParticle s).creationTime = s.creationTime ∧
      (deactivateParticle s).noiseOffset = s.noiseOffset ∧
      (deactivateParticle s).colorR = s.colorR ∧
      (deactivateParticle s).colorG = s.colorG ∧
      (deactivateParticle s).colorB = s.colorB ∧
      (deactivateParticle s).startColorR = s.startColorR ∧
      (deactivateParticle s).startColorG = s.startColorG ∧
      (deactivateParticle s).startColorB = s.startColorB ∧
      (deactivateParticle s).startFrame = s.startFrame ∧
      (deactivateParticle s).startLifetime = s.startLifetime ∧
      (deactivateParticle s).size = s.size ∧
      (deactivateParticle s).startSize = s.startSize ∧
      (deactivateParticle s).startOpacity = s.startOpacity ∧
      (deactivateParticle s).rotation = s.rotation ∧
      (deactivateParticle s).rotationOverLifetime = s.rotationOverLifetime ∧
      (deactivateParticle s).position = s.position ∧
      (deactivateParticle s).startPosition = s.startPosition ∧
      (deactivateParticle s).velocity = s.velocity ∧
      (deactivateParticle s).linearSpeed = s.linearSpeed ∧
      (deactivateParticle s).orbitalSpeed = s.orbitalSpeed ∧
      (deactivateParticle s).orbitalPositionOffset = s.orbitalPositionOffset ∧
      (deactivateParticle s).lifetime = s.lifetime) ∧
    (∀ (cfg : ActivationConfig) (sampler : SamplerFn) (modifier : ParticleSlot → ParticleSlot)
        (rng : ℕ → ℚ) (k : ℕ) (activationTime tNorm : ℚ) (position : Vec3Q)
        (s target : ParticleSlot),
      cfg.hasNoiseOffsets = true →
      cfg.rotationOverLifetimeActive = true →
      cfg.hasLinearVelocityData = true →
      cfg.hasOrbitalVelocityData = true →
      activateParticle cfg sampler modifier rng k activationTime tNorm position s
        = activateParticle cfg sampler modifier rng k activationTime tNorm position target) := by
  constructor
  · intro s
    refine ⟨rfl, rfl, rfl, rfl, rfl, rfl, rfl, rfl, rfl, rfl, rfl, rfl,
      rfl, rfl, rfl, rfl, rfl, rfl, rfl, rfl, rfl, rfl, rfl, rfl⟩
  · intro cfg sampler modifier rng k activationTime tNorm position s target h1 h2 h3 h4
    simp only [activateParticle, activateStartValues, calcAxisTriple, h1, h2, h3, h4,
      if_true]

/-- Witness for C8 with the fully enabled `witnessConfig`: deactivation
leaves the stale slot's position untouched, and re-activation from the stale
slot and from the blank slot produce identical results. -/
theorem C8_deactivate_reactivate_witness :
    ((deactivateParticle staleSlot).isActive = false ∧
      (deactivateParticle staleSlot).position = staleSlot.position) ∧
    activateParticle witnessConfig witnessSampler id (fun _ => 1/2) 0 0 0 ⟨0, 0, 0⟩ staleSlot
      = activateParticle witnessConfig witnessSampler id (fun _ => 1/2) 0 0 0 ⟨0, 0, 0⟩
          blankSlot := by
  constructor
  · exact ⟨(C8_deactivate_reactivate.1 staleSlot).1,
      (C8_deactivate_reactivate.1 staleSlot).2.2.2.2.2.2.2.2.2.2.2.2.2.2.2.2.2.1⟩
  · exact C8_deactivate_reactivate.2 witnessConfig witnessSampler id (fun _ => 1/2) 0 0 0
      ⟨0, 0, 0⟩ staleSlot blankSlot rfl rfl rfl rfl

/-- C10: whenever activation succeeds, a single random ratio in `[0, 1)` is
shared by the three color channels: each channel of the spawned start color
is `min + t * (max - min)` with one and the same `t`, and the visible color
channels equal the cached start color channels — so spawned colors lie on
the straight segment between the configured `min` and `max` colors and the
channels are never randomized independently. -/
theorem C10_shared_color_draw (cfg : ActivationConfig) (sampler : SamplerFn) (rng : ℕ → ℚ)
    (k : ℕ) (activationTime tNorm : ℚ) (position : Vec3Q) (s res : ParticleSlot) (k' : ℕ)
    (hrng : ∀ i, 0 ≤ rng i ∧ rng i < 1)
    (h : activateStartValues cfg sampler rng k activationTime tNorm position s
      = .ok (res, k')) :
    ∃ tt : ℚ, 0 ≤ tt ∧ tt < 1 ∧
      res.startColorR = cfg.startColorMin.r + tt * (cfg.startColorMax.r - cfg.startColorMin.r) ∧
      res.startColorG = cfg.startColorMin.g + tt * (cfg.startColorMax.g - cfg.startColorMin.g) ∧
      res.startColorB = cfg.startColorMin.b + tt * (cfg.startColorMax.b - cfg.startColorMin.b) ∧
      res.colorR = res.startColorR ∧ res.colorG = res.startColorG ∧
      res.colorB = res.startColorB := by
  simp only [activateStartValues] at h
  repeat' split at h
  any_goals exact Except.noConfusion h
  all_goals
    simp only [Except.ok.injEq, Prod.mk.injEq] at h
  all_goals
    obtain ⟨hres, hk⟩ := h
  all_goals
    subst hres
  all_goals
    exact ⟨_, (hrng _).1, (hrng _).2, rfl, rfl, rfl, rfl, rfl, rfl⟩

/-- Witness for C10: the blank slot activated with `witnessConfig` under the
constant-half random stream; the ratio is 1/2 and the start color is the
midpoint `(1, 1/2, 0)` of the configured min and max colors. -/
theorem C10_shared_color_draw_witness :
    ∃ tt : ℚ, 0 ≤ tt ∧ tt < 1 ∧
      ((witnessActivated).startColorR
        = witnessConfig.startColorMin.r
          + tt * (witnessConfig.startColorMax.r - witnessConfig.startColorMin.r)) ∧
      ((witnessActivated).startColorG
        = witnessConfig.startColorMin.g
          + tt * (witnessConfig.startColorMax.g - witnessConfig.startColorMin.g)) ∧
      ((witnessActivated).startColorB
        = witnessConfig.startColorMin.b
          + tt * (witnessConfig.startColorMax.b - witnessConfig.startColorMin.b)) ∧
      (witnessActivated).colorR = (witnessActivated).startColorR ∧
      (witnessActivated).colorG = (witnessActivated).startColorG ∧
      (witnessActivated).colorB = (witnessActivated).startColorB :=
  C10_shared_color_draw witnessConfig witnessSampler (fun _ => 1/2) 0 0 0 ⟨0, 0, 0⟩
    blankSlot witnessActivated 3 (fun _ => by norm_num)
    (by
      simp only [activateStartValues, optValue, calculateValue, calcAxisTriple,
        witnessConfig, witnessSampler, blankSlot, witnessActivated, randFloat]
      norm_num)

/-- Folding `+ f i` over `range m` is the sum of `f` over `range m`. -/
theorem foldl_add_eq_sum (f : ℕ → ℚ) :
    ∀ (m : ℕ) (a : ℚ),
      (List.range m).foldl (fun v i => v + f i) a = a + ∑ i ∈ Finset.range m, f i := by
  intro m
  induction m with
  | zero => intro a; simp
  | succ m ih =>
    intro a
    rw [List.range_succ, List.foldl_append, ih, Finset.sum_range_succ]
    simp [add_assoc]

/-- The source's product loop computes the binomial coefficient exactly. -/
theorem nCr_eq_choose : ∀ (n k : ℕ), k ≤ n → nCr n k = (n.choose k : ℚ) := by
  intro n k
  induction k with
  | zero => intro _; simp [nCr]
  | succ k ih =>
    intro h
    have hk : k ≤ n := Nat.le_of_succ_le h
    have hstep : nCr n (k + 1)
        = nCr n k * (((n : ℚ) + 1 - ((k : ℚ) + 1)) / ((k : ℚ) + 1)) := by
      rw [nCr, List.range_succ, List.foldl_append, ← nCr]
      rfl
    have hcast : ((n : ℚ) + 1 - ((k : ℚ) + 1)) = ((n - k : ℕ) : ℚ) := by
      rw [Nat.cast_sub hk]; ring
    have hq : (n.choose (k + 1) : ℚ) * ((k : ℚ) + 1)
        = (n.choose k : ℚ) * ((n - k : ℕ) : ℚ) := by
      exact_mod_cast congrArg (fun x : ℕ => (x : ℚ)) (Nat.choose_succ_right_eq n k)
    have hk1 : ((k : ℚ) + 1) ≠ 0 := by positivity
    rw [hstep, ih hk, hcast, ← mul_div_assoc, div_eq_iff hk1]
    exact hq.symm

/-- The Bernstein accumulation loop as a sum over true binomial
coefficients. -/
theorem bernsteinFold_eq_sum (pts : List BezierPoint) (start n : ℕ) (q : ℚ) :
    bernsteinFold pts start n q
      = ∑ i ∈ Finset.range (n + 1),
          (n.choose i : ℚ) * (1 - q) ^ (n - i) * q ^ i * ((pts.getD (start + i) default).y) := by
  rw [bernsteinFold,
    foldl_add_eq_sum (fun i => nCr n i * (1 - q) ^ (n - i) * q ^ i *
      ((pts.getD (start + i) default).y)), zero_add]
  apply Finset.sum_congr rfl
  intro i hi
  rw [nCr_eq_choose n i (Nat.lt_succ_iff.1 (Finset.mem_range.1 hi))]

/-- The anchor scan, when some later point carries a percentage above `p`
and the running `start` already points at a percentage at most `p`, ends on
a bracketing pair of percentage-tagged anchors. -/
theorem scanGo_found (p : ℚ) (hp : 0 ≤ p) (pts : List BezierPoint) :
    ∀ (l : List BezierPoint) (i s d : ℕ),
      pts.drop i = l →
      (∃ qs, (pts.getD s default).percentage = some qs ∧ qs ≤ p) →
      s < i →
      (∃ pt ∈ l, p < pt.percentage.getD 0) →
      ∃ s' t qs qt,
        scanGo p l i s d = (s', t) ∧
        (pts.getD s' default).percentage = some qs ∧ qs ≤ p ∧
        (pts.getD t default).percentage = some qt ∧ p < qt ∧
        s' < t ∧ t < pts.length := by
  intro l
  induction l with
  | nil =>
    intro i s d _ _ _ hex
    simp at hex
  | cons pt rest ih =>
    intro i s d hdrop hs hsi hex
    have hi0 : pts[i]? = some pt := by
      have h := List.getElem?_drop pts i 0
      rw [hdrop] at h
      simpa using h.symm
    have hgetI : pts.getD i default = pt := by
      simp [List.getD_eq_getElem?_getD, hi0]
    have hlen : i < pts.length := by
      rcases Nat.lt_or_ge i pts.length with h | h
      · exact h
      · rw [List.drop_eq_nil_iff.2 h] at hdrop
        exact absurd hdrop (by simp)
    by_cases hbreak : p < pt.percentage.getD 0
    · obtain ⟨qs, hqs, hqsle⟩ := hs
      cases hq : pt.percentage with
      | none =>
        rw [hq] at hbreak
        simp at hbreak
        linarith
      | some qt =>
        refine ⟨s, i, qs, qt, ?_, hqs, hqsle, ?_, ?_, hsi, hlen⟩
        · simp [scanGo, hbreak]
        · rw [hgetI, hq]
        · rw [hq] at hbreak; simpa using hbreak
    · have hdrop' : pts.drop (i + 1) = rest := by
        have h := List.drop_drop 1 i pts
        rw [hdrop] at h
        simpa using h.symm
      have hs'' : ∃ qs, (pts.getD (if pt.percentage.isSome then i else s) default).percentage
          = some qs ∧ qs ≤ p := by
        by_cases hsome : pt.percentage.isSome
        · obtain ⟨q, hq⟩ := Option.isSome_iff_exists.1 hsome
          rw [hq] at hbreak
          simp at hbreak
          exact ⟨q, by simp [hsome, List.getD_eq_getElem?_getD, hi0, hq], hbreak⟩
        · simpa [hsome] using hs
      have hex' : ∃ pt' ∈ rest, p < pt'.percentage.getD 0 := by
        obtain ⟨pt', hmem, hlt⟩ := hex
        rcases List.mem_cons.1 hmem with rfl | hmem'
        · exact absurd hlt hbreak
        · exact ⟨pt', hmem', hlt⟩
      obtain ⟨s', t, qs, qt, heq, h1, h2, h3, h4, h5, h6⟩ :=
        ih (i + 1) (if pt.percentage.isSome then i else s) d hdrop' hs''
          (by split <;> omega) hex'
      refine ⟨s', t, qs, qt, ?_, h1, h2, h3, h4, h5, h6⟩
      simpa [scanGo, hbreak] using heq

/-- The `start`/`stop` scan from its initial state, on a curve whose head is
tagged with a percentage at most `p` and which holds a tag above `p`. -/
theorem scanAnchors_spec (p : ℚ) (hp0 : 0 ≤ p) (p0 : BezierPoint) (rest : List BezierPoint)
    (q0 : ℚ) (hq0 : p0.percentage = some q0) (hq0le : q0 ≤ p)
    (hex : ∃ pt ∈ p0 :: rest, ∃ qt', pt.percentage = some qt' ∧ p < qt') :
    ∃ s t qs qt, scanAnchors p (p0 :: rest) = (s, t) ∧
      (((p0 :: rest).getD s default).percentage = some qs) ∧ qs ≤ p ∧
      (((p0 :: rest).getD t default).percentage = some qt) ∧ p < qt ∧
      s < t ∧ t < (p0 :: rest).length := by
  have hbreak : ¬ p < p0.percentage.getD 0 := by
    rw [hq0]
    simpa using not_lt.2 hq0le
  have hex' : ∃ pt ∈ rest, p < pt.percentage.getD 0 := by
    obtain ⟨pt, hmem, qt', hqt', hlt⟩ := hex
    rcases List.mem_cons.1 hmem with rfl | hmem'
    · rw [hq0] at hqt'
      injection hqt' with hqq
      subst hqq
      linarith
    · exact ⟨pt, hmem', by rw [hqt']; simpa using hlt⟩
  obtain ⟨s, t, qs, qt, heq, h1, h2, h3, h4, h5, h6⟩ :=
    scanGo_found p hp0 (p0 :: rest) rest 1 0 ((p0 :: rest).length - 1) rfl
      ⟨q0, by simpa using hq0, hq0le⟩ (by omega) hex'
  refine ⟨s, t, qs, qt, ?_, h1, h2, h3, h4, h5, h6⟩
  rw [scanAnchors]
  simpa [scanGo, hbreak] using heq

/-- C7: Bézier evaluation clamps progress below 0 to the first point's `y`
and above 1 to the last point's `y`; for progress in `[0, 1]` on a curve
whose first point carries a percentage at most `p` and holding some
percentage above `p`, the anchor scan lands on percentage-tagged anchors
`start`/`stop` with `start.percentage ≤ p < stop.percentage`, and the result
is the Bernstein-basis sum of degree `n = stop - start` over the points from
`start` to `stop` evaluated at the local progress
`(p - start.percentage) / (stop.percentage - start.percentage)`. -/
theorem C7_bezier_evaluation (pts : List BezierPoint) (p0 : BezierPoint)
    (rest : List BezierPoint) (hpts : pts = p0 :: rest) :
    (∀ p : ℚ, p < 0 → bezierEval pts p = .ok p0.y) ∧
    (∀ p : ℚ, 1 < p → bezierEval pts p = .ok ((pts.getD (pts.length - 1) default).y)) ∧
    (∀ p : ℚ, 0 ≤ p → p ≤ 1 →
      ∀ q0 : ℚ, p0.percentage = some q0 → q0 ≤ p →
      (∃ pt ∈ pts, ∃ qt', pt.percentage = some qt' ∧ p < qt') →
      ∃ s t qs qt, scanAnchors p pts = (s, t) ∧
        (pts.getD s default).percentage = some qs ∧ qs ≤ p ∧
        (pts.getD t default).percentage = some qt ∧ p < qt ∧
        s < t ∧ t < pts.length ∧
        bezierEval pts p = .ok (∑ i ∈ Finset.range (t - s + 1),
          ((t - s).choose i : ℚ)
            * (1 - (p - qs) / (qt - qs)) ^ (t - s - i)
            * ((p - qs) / (qt - qs)) ^ i
            * ((pts.getD (s + i) default).y))) := by
  subst hpts
  refine ⟨?_, ?_, ?_⟩
  · intro p hneg
    simp [bezierEval, bezierCore, hneg]
  · intro p hgt
    have hnneg : ¬ p < 0 := by linarith
    simp [bezierEval, bezierCore, hnneg, hgt]
  · intro p hple hpge q0 hq0 hq0le hex
    obtain ⟨s, t, qs, qt, hscan, h1, h2, h3, h4, h5, h6⟩ :=
      scanAnchors_spec p hple p0 rest q0 hq0 hq0le hex
    refine ⟨s, t, qs, qt, hscan, h1, h2, h3, h4, h5, h6, ?_⟩
    have hnlt : ¬ p < 0 := not_lt.2 hple
    have hngt : ¬ p > 1 := not_lt.2 hpge
    simp only [bezierEval, bezierCore, hnlt, hngt, if_false, hscan]
    rw [bernsteinFold_eq_sum, h1, h3]
    simp

/-- Witness for C7 on the concrete curve `cpts` (anchors at percentages 0
and 1 with one untagged interior point): clamping below 0 and above 1, and
the bracketed Bernstein evaluation at progress `1/4`. -/
theorem C7_bezier_evaluation_witness :
    bezierEval cpts (-1) = .ok 0 ∧
    bezierEval cpts 2 = .ok ((cpts.getD (cpts.length - 1) default).y) ∧
    (∃ s t qs qt, scanAnchors (1/4) cpts = (s, t) ∧
      (cpts.getD s default).percentage = some qs ∧ qs ≤ 1/4 ∧
      (cpts.getD t default).percentage = some qt ∧ 1/4 < qt ∧
      s < t ∧ t < cpts.length ∧
      bezierEval cpts (1/4) = .ok (∑ i ∈ Finset.range (t - s + 1),
        ((t - s).choose i : ℚ)
          * (1 - ((1/4 : ℚ) - qs) / (qt - qs)) ^ (t - s - i)
          * (((1/4 : ℚ) - qs) / (qt - qs)) ^ i
          * ((cpts.getD (s + i) default).y))) := by
  have h := C7_bezier_evaluation cpts { x := 0, y := 0, percentage := some 0 }
    [{ x := 1/2, y := 1, percentage := none }, { x := 1, y := 1/2, percentage := some 1 }] rfl
  exact ⟨h.1 (-1) (by norm_num), h.2.1 2 (by norm_num),
    h.2.2 (1/4) (by norm_num) (by norm_num) 0 rfl (by norm_num)
      ⟨{ x := 1, y := 1/2, percentage := some 1 }, by simp [cpts], 1, rfl, by norm_num⟩⟩

/-- C4 (amended): the sphere emitter applies the emitter rotation to the
sampled raw position, builds the outward velocity as `speed` times the unit
vector of the already-rotated position, and then applies the emitter
rotation to the velocity once more before returning — so the returned
velocity is the rotation applied to `speed · unit(position)`, not that
vector itself. -/
theorem C4_sphere_rotation (q : QuatR) (speed radius radiusThickness arc r0 r1 r2 : ℝ) :
    (calculateRandomPositionAndVelocityOnSphere q speed radius radiusThickness arc r0 r1 r2).1
      = applyQuaternion q (sphereRawPosition radius radiusThickness arc r0 r1 r2) ∧
    (calculateRandomPositionAndVelocityOnSphere q speed radius radiusThickness arc r0 r1 r2).2
      = applyQuaternion q
          ⟨(calculateRandomPositionAndVelocityOnSphere q speed radius radiusThickness arc
              r0 r1 r2).1.x
            * (1 / vecLength (calculateRandomPositionAndVelocityOnSphere q speed radius
                radiusThickness arc r0 r1 r2).1) * speed,
           (calculateRandomPositionAndVelocityOnSphere q speed radius radiusThickness arc
              r0 r1 r2).1.y
            * (1 / vecLength (calculateRandomPositionAndVelocityOnSphere q speed radius
                radiusThickness arc r0 r1 r2).1) * speed,
           (calculateRandomPositionAndVelocityOnSphere q speed radius radiusThickness arc
              r0 r1 r2).1.z
            * (1 / vecLength (calculateRandomPositionAndVelocityOnSphere q speed radius
                radiusThickness arc r0 r1 r2).1) * speed⟩ := by
  constructor <;> rfl

/-- The sphere emitter evaluated at the unit quaternion
`(3/5, 0, 0, 4/5)` (a rotation about the x axis), `speed = radius = 1`,
`radiusThickness = 0`, `arc = 360`, and the random draws `(0, 1, 0)`:
the raw sample is `(0, 0, 1)`, the returned position is rotated once and the
returned velocity twice. -/
theorem sphere_concrete_eval :
    calculateRandomPositionAndVelocityOnSphere ⟨3/5, 0, 0, 4/5⟩ 1 1 0 360 0 1 0
      = (⟨0, -24/25, 7/25⟩, ⟨0, -336/625, -527/625⟩) := by
  have hraw : sphereRawPosition 1 0 360 0 1 0 = ⟨0, 0, 1⟩ := by
    simp only [sphereRawPosition]
    norm_num [Real.arccos_one, Real.sin_zero, Real.cos_zero, Vec3R.mk.injEq]
  have hpos : applyQuaternion ⟨3/5, 0, 0, 4/5⟩ ⟨0, 0, 1⟩ = ⟨0, -24/25, 7/25⟩ := by
    simp only [applyQuaternion]
    norm_num [Vec3R.mk.injEq]
  have hlen : vecLength ⟨0, -24/25, 7/25⟩ = 1 := by
    simp only [vecLength]
    rw [show ((0 : ℝ) * 0 + -24/25 * (-24/25) + 7/25 * (7/25)) = 1 by norm_num]
    exact Real.sqrt_one
  simp only [calculateRandomPositionAndVelocityOnSphere]
  rw [hraw, hpos, hlen]
  norm_num [applyQuaternion, Prod.ext_iff, Vec3R.mk.injEq]

/-- Counterexample to C4 as stated: at the inputs of
`sphere_concrete_eval` the returned velocity is not `speed` times the unit
vector of the returned position (the emitter rotation has been applied to it
a second time). -/
theorem C4_sphere_velocity_counterexample :
    ¬ ((calculateRandomPositionAndVelocityOnSphere ⟨3/5, 0, 0, 4/5⟩ 1 1 0 360 0 1 0).2
      = ⟨(calculateRandomPositionAndVelocityOnSphere ⟨3/5, 0, 0, 4/5⟩ 1 1 0 360 0 1 0).1.x
          * (1 / vecLength (calculateRandomPositionAndVelocityOnSphere
              ⟨3/5, 0, 0, 4/5⟩ 1 1 0 360 0 1 0).1) * 1,
         (calculateRandomPositionAndVelocityOnSphere ⟨3/5, 0, 0, 4/5⟩ 1 1 0 360 0 1 0).1.y
          * (1 / vecLength (calculateRandomPositionAndVelocityOnSphere
              ⟨3/5, 0, 0, 4/5⟩ 1 1 0 360 0 1 0).1) * 1,
         (calculateRandomPositionAndVelocityOnSphere ⟨3/5, 0, 0, 4/5⟩ 1 1 0 360 0 1 0).1.z
          * (1 / vecLength (calculateRandomPositionAndVelocityOnSphere
              ⟨3/5, 0, 0, 4/5⟩ 1 1 0 360 0 1 0).1) * 1⟩) := by
  have hlen : vecLength ⟨0, -24/25, 7/25⟩ = 1 := by
    simp only [vecLength]
    rw [show ((0 : ℝ) * 0 + -24/25 * (-24/25) + 7/25 * (7/25)) = 1 by norm_num]
    exact Real.sqrt_one
  rw [sphere_concrete_eval]
  rw [show ((⟨0, -24/25, 7/25⟩, ⟨0, -336/625, -527/625⟩) :
      Vec3R × Vec3R).1 = ⟨0, -24/25, 7/25⟩ from rfl]
  rw [hlen]
  intro h
  have hy := congrArg Vec3R.y h
  norm_num at hy

end ThreeParticles
